import Mathlib

/-
  Verification development for the go-binwrapper package.

  The Go sources are embedded shallowly: pure helpers become Lean
  functions, the platform lookup (runtime.GOOS / runtime.GOARCH) becomes
  explicit string parameters, byte slices become lists of naturals, and
  the operating-system effects of Run, findExisting, download and
  stripDir are modelled by explicit environment records and state
  passing.  Entry lists of modelled directories are kept in the order the
  Go ReadDir call enumerates them (name-sorted on a real system); the
  definitions below are generic in that order.
-/

namespace Binwrapper

/-- Go struct Src: a candidate downloadable artifact (binwrapper.go). -/
structure Src where
  url : String
  os : String
  arch : String
  execPath : String
deriving DecidableEq, Repr

/-- Go helper stringsContains (os_filter.go): linear scan for an exact
string match. -/
def stringsContains (values : List String) (value : String) : Bool :=
  match values with
  | [] => false
  | v :: rest => if v = value then true else stringsContains rest value

/-- The arch candidate list built at the top of osFilterObj:
runtime.GOARCH, extended with x86 when GOARCH is 386 and with x64 when
GOARCH is amd64. -/
def arches (goarch : String) : List String :=
  if goarch = "386" then [goarch, "x86"]
  else if goarch = "amd64" then [goarch, "x64"]
  else [goarch]

/-- The platform candidate list built at the top of osFilterObj:
runtime.GOOS, extended with win32 when GOOS is windows. -/
def platforms (goos : String) : List String :=
  if goos = "windows" then [goos, "win32"] else [goos]

/-- Go function osFilterObj (os_filter.go): scan the source list in
declaration order and return the first entry whose os and arch
constraints are satisfied by one of the four cascaded conditions. -/
def osFilterObj (goos goarch : String) : List Src → Option Src
  | [] => none
  | v :: rest =>
    if stringsContains (platforms goos) v.os && stringsContains (arches goarch) v.arch then
      some v
    else if stringsContains (platforms goos) v.os && (v.arch == "") then
      some v
    else if stringsContains (arches goarch) v.arch && (v.os == "") then
      some v
    else if (v.os == "") && (v.arch == "") then
      some v
    else
      osFilterObj goos goarch rest

/-- stringsContains decides list membership. -/
theorem stringsContains_iff (l : List String) (s : String) :
    stringsContains l s = true ↔ s ∈ l := by
  induction l with
  | nil => simp [stringsContains]
  | cons x xs ih =>
    by_cases h : x = s
    · simp [stringsContains, h]
    · have h2 : ¬ s = x := fun e => h e.symm
      simp [stringsContains, h, h2, ih]

/-- Tier 1 of the selection rule as the spec words it: both os and arch
specified and both matching their candidate sets. -/
def tier1 (goos goarch : String) (v : Src) : Bool :=
  (v.os != "") && (v.arch != "") &&
    stringsContains (platforms goos) v.os && stringsContains (arches goarch) v.arch

/-- Tier 2 of the selection rule as the spec words it: os matching, arch
unspecified. -/
def tier2 (goos : String) (v : Src) : Bool :=
  (v.os != "") && stringsContains (platforms goos) v.os && (v.arch == "")

/-- Tier 3 of the selection rule as the spec words it: arch matching, os
unspecified. -/
def tier3 (goarch : String) (v : Src) : Bool :=
  (v.arch != "") && stringsContains (arches goarch) v.arch && (v.os == "")

/-- Tier 4 of the selection rule as the spec words it: both unspecified
(universal fallback). -/
def tier4 (v : Src) : Bool :=
  (v.os == "") && (v.arch == "")

/-- Modelled from the spec wording of selectSource: a specificity-ranked
match, scanning all sources for tier 1 before falling back to tier 2,
then tier 3, then tier 4, with declaration order breaking ties only
inside one tier.  This is the comparison point for C1; the code itself
is osFilterObj. -/
def selectSourceSpec (goos goarch : String) (xs : List Src) : Option Src :=
  (xs.find? (tier1 goos goarch)) <|> (xs.find? (tier2 goos)) <|>
    (xs.find? (tier3 goarch)) <|> (xs.find? tier4)

/-- A source satisfies some tier of the selection rule. -/
def matchesAnyTier (goos goarch : String) (v : Src) : Bool :=
  tier1 goos goarch v || tier2 goos v || tier3 goarch v || tier4 v

/-- Membership in the platform candidate list forces a nonempty name
once the current OS identifier is nonempty. -/
theorem mem_platforms_ne_empty {goos s : String} (h : goos ≠ "")
    (hc : stringsContains (platforms goos) s = true) : s ≠ "" := by
  unfold platforms at hc
  by_cases hw : goos = "windows" <;> simp [hw, stringsContains] at hc <;>
    rcases hc with rfl | rfl <;> simp_all

/-- Membership in the arch candidate list forces a nonempty name once
the current architecture identifier is nonempty. -/
theorem mem_arches_ne_empty {goarch s : String} (h : goarch ≠ "")
    (hc : stringsContains (arches goarch) s = true) : s ≠ "" := by
  unfold arches at hc
  by_cases h3 : goarch = "386" <;> by_cases h6 : goarch = "amd64" <;>
    simp [h3, h6, stringsContains] at hc <;>
    rcases hc with rfl | rfl <;> simp_all

/-- On nonempty platform identifiers, the cascaded condition checked by
osFilterObj for one source agrees with the disjunction of the four
spec-worded tiers. -/
theorem code_cond_eq_matchesAnyTier {goos goarch : String}
    (hos : goos ≠ "") (harch : goarch ≠ "") (v : Src) :
    ((stringsContains (platforms goos) v.os && stringsContains (arches goarch) v.arch)
      || (stringsContains (platforms goos) v.os && (v.arch == ""))
      || (stringsContains (arches goarch) v.arch && (v.os == ""))
      || ((v.os == "") && (v.arch == ""))) = matchesAnyTier goos goarch v := by
  unfold matchesAnyTier tier1 tier2 tier3 tier4
  cases hco : stringsContains (platforms goos) v.os <;>
    cases hca : stringsContains (arches goarch) v.arch
  · cases hoe : v.os == "" <;> cases hae : v.arch == "" <;> simp_all [bne]
  · have ha := mem_arches_ne_empty harch hca
    cases hoe : v.os == "" <;> cases hae : v.arch == "" <;> simp_all [bne]
  · have ho := mem_platforms_ne_empty hos hco
    cases hoe : v.os == "" <;> cases hae : v.arch == "" <;> simp_all [bne]
  · have ho := mem_platforms_ne_empty hos hco
    have ha := mem_arches_ne_empty harch hca
    cases hoe : v.os == "" <;> cases hae : v.arch == "" <;> simp_all [bne]

/-- One step of osFilterObj, written with the four cascaded conditions
collected into a single disjunction. -/
theorem osFilterObj_cons (goos goarch : String) (v : Src) (rest : List Src) :
    osFilterObj goos goarch (v :: rest) =
      if (stringsContains (platforms goos) v.os && stringsContains (arches goarch) v.arch)
          || (stringsContains (platforms goos) v.os && (v.arch == ""))
          || (stringsContains (arches goarch) v.arch && (v.os == ""))
          || ((v.os == "") && (v.arch == "")) then some v
      else osFilterObj goos goarch rest := by
  conv_lhs => rw [osFilterObj]
  cases h1 : (stringsContains (platforms goos) v.os && stringsContains (arches goarch) v.arch) <;>
    cases h2 : (stringsContains (platforms goos) v.os && (v.arch == "")) <;>
    cases h3 : (stringsContains (arches goarch) v.arch && (v.os == "")) <;>
    cases h4 : ((v.os == "") && (v.arch == "")) <;>
    simp [h1, h2, h3, h4]

/-- osFilterObj is the first-match scan over the disjunction of the four
tiers: declaration order dominates, not tier specificity. -/
theorem osFilterObj_eq_find {goos goarch : String}
    (hos : goos ≠ "") (harch : goarch ≠ "") :
    ∀ xs : List Src, osFilterObj goos goarch xs = xs.find? (matchesAnyTier goos goarch)
  | [] => rfl
  | v :: rest => by
    rw [osFilterObj_cons, code_cond_eq_matchesAnyTier hos harch v, List.find?_cons]
    cases h : matchesAnyTier goos goarch v <;>
      simp [h, osFilterObj_eq_find hos harch rest]

/-- C1 counterexample: a universal source declared before a fully
matching os-and-arch-specific source.  osFilterObj returns the earlier
universal source, while the specificity-ranked selection the claim
describes returns the later specific one, so declaration order is not
merely a tie-break among equally specific sources. -/
theorem osFilterObj_not_specificity_ranked :
    osFilterObj "linux" "amd64"
        [⟨"", "", "", ""⟩, ⟨"u2", "linux", "amd64", "p2"⟩] = some ⟨"", "", "", ""⟩ ∧
    selectSourceSpec "linux" "amd64"
        [⟨"", "", "", ""⟩, ⟨"u2", "linux", "amd64", "p2"⟩] = some ⟨"u2", "linux", "amd64", "p2"⟩ ∧
    (⟨"", "", "", ""⟩ : Src) ≠ ⟨"u2", "linux", "amd64", "p2"⟩ := by
  refine ⟨by decide, by decide, by decide⟩

/-- C1 (amended): for nonempty platform identifiers, osFilterObj returns
the first source in declaration order satisfying any of the four tiers
(each source judged individually), and returns no match exactly when no
source satisfies any tier. -/
theorem osFilterObj_first_any_tier (goos goarch : String)
    (hos : goos ≠ "") (harch : goarch ≠ "") (xs : List Src) :
    osFilterObj goos goarch xs = xs.find? (matchesAnyTier goos goarch) ∧
    (osFilterObj goos goarch xs = none ↔
      ∀ v ∈ xs, matchesAnyTier goos goarch v = false) := by
  refine ⟨osFilterObj_eq_find hos harch xs, ?_⟩
  rw [osFilterObj_eq_find hos harch xs, List.find?_eq_none]
  simp

/-- C1 witness: the amended statement applied at a concrete platform and
source list. -/
theorem osFilterObj_first_any_tier_witness :
    osFilterObj "linux" "amd64" [⟨"a", "linux", "", "x"⟩]
        = List.find? (matchesAnyTier "linux" "amd64") [⟨"a", "linux", "", "x"⟩] ∧
    ("linux" : String) ≠ "" :=
  ⟨(osFilterObj_first_any_tier "linux" "amd64" (by decide) (by decide)
      [⟨"a", "linux", "", "x"⟩]).1, by decide⟩

/-- C5: the candidate sets used by the selection function accept exactly
the current architecture plus the alias x86 when it is 386 and x64 when
it is amd64, and exactly the current OS plus win32 when it is windows;
no other aliases are accepted. -/
theorem candidates_characterization :
    ∀ goarch goos a o : String,
      (stringsContains (arches goarch) a = true ↔
        (a = goarch ∨ (goarch = "386" ∧ a = "x86") ∨ (goarch = "amd64" ∧ a = "x64"))) ∧
      (stringsContains (platforms goos) o = true ↔
        (o = goos ∨ (goos = "windows" ∧ o = "win32"))) := by
  intro goarch goos a o
  constructor
  · rw [stringsContains_iff]
    unfold arches
    by_cases h3 : goarch = "386"
    · subst h3; simp
    · by_cases h6 : goarch = "amd64"
      · subst h6; simp
      · simp [h3, h6]
  · rw [stringsContains_iff]
    unfold platforms
    by_cases hw : goos = "windows"
    · subst hw; simp
    · simp [hw]

/-- ASCII model of Go strings.ToLower. -/
def stringToLower (s : String) : String :=
  String.mk (s.data.map Char.toLower)

/-- Scan helper for filepathExt: walk the reversed character list of the
final path element; stop empty at a separator, return the suffix from
the final dot otherwise. -/
def extRev : List Char → List Char → String
  | [], _ => ""
  | c :: rest, acc =>
    if c = '/' then ""
    else if c = '.' then String.mk (c :: acc)
    else extRev rest (c :: acc)

/-- Go filepath.Ext (slash separators): the suffix beginning at the
final dot in the final element of the path, empty when there is none. -/
def filepathExt (p : String) : String :=
  extRev p.data.reverse []

/-- Element processing of Go filepath.Clean: drop empty and dot
elements, resolve dot-dot against the output stack (kept reversed),
keeping dot-dot elements that escape a relative path and dropping those
that would escape the root of a rooted path. -/
def cleanElems (rooted : Bool) : List String → List String → List String
  | [], acc => acc.reverse
  | e :: rest, acc =>
    if e = "" ∨ e = "." then cleanElems rooted rest acc
    else if e = ".." then
      match acc with
      | top :: acc2 =>
        if top = ".." then cleanElems rooted rest (e :: acc)
        else cleanElems rooted rest acc2
      | [] => if rooted then cleanElems rooted rest [] else cleanElems rooted rest [e]
    else cleanElems rooted rest (e :: acc)

/-- Go filepath.Clean for slash-separated paths. -/
def filepathClean (p : String) : String :=
  if p = "" then "."
  else
    let rooted := p.startsWith "/"
    let out := String.intercalate "/" (cleanElems rooted (p.splitOn "/") [])
    if rooted then "/" ++ out
    else if out = "" then "." else out

/-- Go filepath.Join on two elements: empty elements are ignored and the
concatenation is cleaned; all-empty input gives the empty string. -/
def filepathJoin (a b : String) : String :=
  if a = "" ∧ b = "" then ""
  else if a = "" then filepathClean b
  else if b = "" then filepathClean a
  else filepathClean (a ++ "/" ++ b)

/-- Go struct BinWrapper (binwrapper.go).  The io.Reader, io.Writer and
exec.Cmd pointer fields are modelled by their presence; byte slices by
lists of naturals; time.Duration and the strip int by Int. -/
structure BinWrapper where
  src : List Src
  dest : String
  execPath : String
  strip : Int
  output : List Nat
  autoExe : Bool
  stdErr : List Nat
  stdOut : List Nat
  stdIn : Option Unit
  stdOutWriter : Option Unit
  args : List String
  env : Option (List String)
  debug : Bool
  cmd : Option Unit
  timeout : Int
deriving DecidableEq, Repr

/-- Go NewBinWrapper: the zero value of the struct. -/
def NewBinWrapper : BinWrapper :=
  ⟨[], "", "", 0, [], false, [], [], none, none, [], none, false, none, 0⟩

/-- Go method BinWrapper.ExecPath, with runtime.GOOS as a parameter:
append a lowercase-insensitive .exe suffix on windows when autoExe is
set, then store the executable path. -/
def BinWrapper.ExecPath (goos : String) (b : BinWrapper) (execPath : String) : BinWrapper :=
  if b.autoExe && (goos == "windows") && (stringToLower (filepathExt execPath) != ".exe")
  then { b with execPath := execPath ++ ".exe" }
  else { b with execPath := execPath }

/-- Go method BinWrapper.AutoExe: set the flag and re-run ExecPath on
the stored path. -/
def BinWrapper.AutoExe (goos : String) (b : BinWrapper) : BinWrapper :=
  BinWrapper.ExecPath goos { b with autoExe := true } b.execPath

/-- The pure tail of Go method BinWrapper.Path: the dot destination is
concatenated with the separator by hand, anything else goes through
filepath.Join.  Separators are modelled slash-style. -/
def BinWrapper.pathString (b : BinWrapper) : String :=
  if b.dest = "." then b.dest ++ "/" ++ b.execPath
  else filepathJoin b.dest b.execPath

/-- Go method BinWrapper.Path: select a source, apply a nonempty
execPath override through the ExecPath setter (a state mutation), then
compute the returned path from the possibly updated state. -/
def BinWrapper.Path (goos goarch : String) (b : BinWrapper) : String × BinWrapper :=
  let b1 :=
    match osFilterObj goos goarch b.src with
    | some src => if src.execPath != "" then b.ExecPath goos src.execPath else b
    | none => b
  (b1.pathString, b1)

/-- ExecPath rewrites the execPath field and nothing else. -/
theorem ExecPath_frame (goos : String) (b : BinWrapper) (p : String) :
    (b.ExecPath goos p).src = b.src ∧ (b.ExecPath goos p).dest = b.dest ∧
    (b.ExecPath goos p).strip = b.strip ∧ (b.ExecPath goos p).output = b.output ∧
    (b.ExecPath goos p).autoExe = b.autoExe ∧ (b.ExecPath goos p).stdErr = b.stdErr ∧
    (b.ExecPath goos p).stdOut = b.stdOut ∧ (b.ExecPath goos p).stdIn = b.stdIn ∧
    (b.ExecPath goos p).stdOutWriter = b.stdOutWriter ∧ (b.ExecPath goos p).args = b.args ∧
    (b.ExecPath goos p).env = b.env ∧ (b.ExecPath goos p).debug = b.debug ∧
    (b.ExecPath goos p).cmd = b.cmd ∧ (b.ExecPath goos p).timeout = b.timeout := by
  unfold BinWrapper.ExecPath
  by_cases h : (b.autoExe && (goos == "windows")
      && (stringToLower (filepathExt p) != ".exe")) = true <;> simp [h]

/-- C10: Path is not a pure accessor.  When the selected source carries
a nonempty execPath override, the wrapper state after Path is exactly
the state produced by the ExecPath setter (which appends .exe on
windows under autoExe) — execPath overwritten, every other field
untouched; otherwise the state is entirely unchanged; and in both cases
the returned string is computed from the updated state. -/
theorem Path_state_effect (goos goarch : String) (b : BinWrapper) :
    (∀ src, osFilterObj goos goarch b.src = some src → src.execPath ≠ "" →
      (b.Path goos goarch).2 = b.ExecPath goos src.execPath ∧
      ((b.Path goos goarch).2.src = b.src ∧ (b.Path goos goarch).2.dest = b.dest ∧
       (b.Path goos goarch).2.strip = b.strip ∧ (b.Path goos goarch).2.output = b.output ∧
       (b.Path goos goarch).2.autoExe = b.autoExe ∧ (b.Path goos goarch).2.stdErr = b.stdErr ∧
       (b.Path goos goarch).2.stdOut = b.stdOut ∧ (b.Path goos goarch).2.stdIn = b.stdIn ∧
       (b.Path goos goarch).2.stdOutWriter = b.stdOutWriter ∧
       (b.Path goos goarch).2.args = b.args ∧ (b.Path goos goarch).2.env = b.env ∧
       (b.Path goos goarch).2.debug = b.debug ∧ (b.Path goos goarch).2.cmd = b.cmd ∧
       (b.Path goos goarch).2.timeout = b.timeout)) ∧
    (∀ src, osFilterObj goos goarch b.src = some src → src.execPath = "" →
      (b.Path goos goarch).2 = b) ∧
    (osFilterObj goos goarch b.src = none → (b.Path goos goarch).2 = b) ∧
    (b.Path goos goarch).1 = (b.Path goos goarch).2.pathString := by
  refine ⟨?_, ?_, ?_, ?_⟩
  · intro src hsel hne
    have hb : (src.execPath != "") = true := by simp [bne, hne]
    have h2 : (b.Path goos goarch).2 = b.ExecPath goos src.execPath := by
      unfold BinWrapper.Path
      rw [hsel]
      simp [hb]
    refine ⟨h2, ?_⟩
    rw [h2]
    exact ExecPath_frame goos b src.execPath
  · intro src hsel he
    unfold BinWrapper.Path
    rw [hsel]
    simp [he]
  · intro hsel
    unfold BinWrapper.Path
    rw [hsel]
  · unfold BinWrapper.Path
    cases osFilterObj goos goarch b.src <;> simp

/-- C10 witness: a wrapper whose only source matches linux and carries
an override; Path overwrites execPath and changes nothing else. -/
theorem Path_state_effect_witness :
    (BinWrapper.Path "linux" "amd64"
        { NewBinWrapper with src := [⟨"u", "linux", "", "newbin"⟩], execPath := "old" }).2
      = BinWrapper.ExecPath "linux"
          { NewBinWrapper with src := [⟨"u", "linux", "", "newbin"⟩], execPath := "old" }
          "newbin" :=
  ((Path_state_effect "linux" "amd64"
      { NewBinWrapper with src := [⟨"u", "linux", "", "newbin"⟩], execPath := "old" }).1
    ⟨"u", "linux", "", "newbin"⟩ (by decide) (by decide)).1

/-- Outcome of the os.Stat call at the top of findExisting: the path
exists, the path does not exist, or the stat failed for another local
reason. -/
inductive StatRes where
  | ok
  | notExist
  | errOther (e : String)
deriving DecidableEq, Repr

/-- Observable external actions of the acquisition path: the HTTP
download of a url and the archive extraction of a file. -/
inductive AcqEffect where
  | download (url : String)
  | extract (file : String)
deriving DecidableEq, Repr

/-- Environment for the acquisition path: the results produced by the
external HTTP client (downloadFile) and by the archive library together
with stripDir (extractFile); some e reports a failure. -/
structure AcqEnv where
  downloadFile : String → Except String String
  extractFile : String → Option String

/-- Go method BinWrapper.download: select a source or fail with the
unsupported-platform error (message shortened from the source text,
which continues with a remark that the platform is probably not
supported), download the url, extract the file, and finally apply a
nonempty execPath override.  The dest-defaulting assignment at the top
of downloadFile is part of the modelled state change; the effect list
records which external actions ran. -/
def BinWrapper.download (b : BinWrapper) (goos goarch : String) (env : AcqEnv) :
    BinWrapper × Option String × List AcqEffect :=
  match osFilterObj goos goarch b.src with
  | none => (b, some "No binary found matching your system", [])
  | some src =>
    let b1 := if b.dest = "" then { b with dest := "." } else b
    match env.downloadFile src.url with
    | .error e => (b1, some e, [.download src.url])
    | .ok file =>
      match env.extractFile file with
      | some e => (b1, some e, [.download src.url, .extract file])
      | none =>
        let b2 := if src.execPath != "" then b1.ExecPath goos src.execPath else b1
        (b2, none, [.download src.url, .extract file])

/-- Go method BinWrapper.findExisting: stat the resolved path (the Path
call itself may update the stored execPath, see BinWrapper.Path), then
download only when the stat reports not-found, surface any other stat
error as is, and succeed silently when the file exists. -/
def BinWrapper.findExisting (b : BinWrapper) (goos goarch : String) (st : StatRes)
    (env : AcqEnv) : BinWrapper × Option String × List AcqEffect :=
  let b0 := (b.Path goos goarch).2
  match st with
  | .notExist => b0.download goos goarch env
  | .errOther e => (b0, some e, [])
  | .ok => (b0, none, [])

/-- C6: when the stat reports that the resolved path exists,
findExisting succeeds with no download or extraction effect; a stat
error other than not-found is returned as a fatal local error, again
with no effect; only the not-found outcome hands control to download. -/
theorem findExisting_local_first (goos goarch : String) (st : StatRes) (env : AcqEnv)
    (b : BinWrapper) :
    (st = .ok →
      b.findExisting goos goarch st env = ((b.Path goos goarch).2, none, [])) ∧
    (∀ e, st = .errOther e →
      b.findExisting goos goarch st env = ((b.Path goos goarch).2, some e, [])) ∧
    (st = .notExist →
      b.findExisting goos goarch st env = (b.Path goos goarch).2.download goos goarch env) := by
  refine ⟨?_, ?_, ?_⟩
  · rintro rfl; rfl
  · rintro e rfl; rfl
  · rintro rfl; rfl

/-- C6 witness: the existing-file branch at a concrete wrapper. -/
theorem findExisting_local_first_witness :
    BinWrapper.findExisting NewBinWrapper "linux" "amd64" .ok
        ⟨fun _ => Except.error "down", fun _ => none⟩
      = ((NewBinWrapper.Path "linux" "amd64").2, none, []) :=
  (findExisting_local_first "linux" "amd64" .ok
      ⟨fun _ => Except.error "down", fun _ => none⟩ NewBinWrapper).1 rfl

/-- C7: when no source matches the current platform, download returns
the unsupported-platform error, performs no download and no extraction,
and leaves the wrapper state (in particular its executable path)
entirely unchanged. -/
theorem download_unsupported (goos goarch : String) (env : AcqEnv) (b : BinWrapper)
    (h : osFilterObj goos goarch b.src = none) :
    b.download goos goarch env = (b, some "No binary found matching your system", []) := by
  unfold BinWrapper.download
  rw [h]

/-- C7 witness: a source list for another platform. -/
theorem download_unsupported_witness :
    BinWrapper.download { NewBinWrapper with src := [⟨"u", "plan9", "", "x"⟩] }
        "linux" "amd64" ⟨fun _ => Except.error "down", fun _ => none⟩
      = ({ NewBinWrapper with src := [⟨"u", "plan9", "", "x"⟩] },
         some "No binary found matching your system", []) :=
  download_unsupported "linux" "amd64" ⟨fun _ => Except.error "down", fun _ => none⟩
    { NewBinWrapper with src := [⟨"u", "plan9", "", "x"⟩] } (by decide)

/-- Environment for one Run call: the acquisition inputs, the outcome of
cmd.Start, the bytes delivered by the two pipe drains together with the
read errors the ReadAll calls reported (the Go code discards those read
errors with a blank identifier, and so does the model), the outcome of
cmd.Wait, and whether the timeout context expired. -/
structure RunEnv where
  stat : StatRes
  acq : AcqEnv
  startErr : Option String
  stdoutData : List Nat
  stdoutReadErr : Option String
  stderrData : List Nat
  stderrReadErr : Option String
  waitErr : Option String
  ctxDeadlineExceeded : Bool

/-- The error classes Run can return: success, an acquisition error
propagated from findExisting, a start error, the dedicated
context.DeadlineExceeded sentinel, or the wait error. -/
inductive RunResult where
  | ok
  | acqError (e : String)
  | startError (e : String)
  | deadlineExceeded
  | waitError (e : String)
deriving DecidableEq, Repr

/-- The part of Go method BinWrapper.Run after the findExisting step:
build the command (a Path call, then the cmd field is set), start it,
drain stdout into the capture buffer unless an external writer is
configured, drain stderr, wait, and finally turn an expired timeout
context into the dedicated deadline-exceeded result, which otherwise is
the wait outcome. -/
def BinWrapper.runSpawn (b : BinWrapper) (goos goarch : String) (env : RunEnv) :
    BinWrapper × RunResult :=
  let b1 := { (b.Path goos goarch).2 with cmd := some () }
  match env.startErr with
  | some e => (b1, .startError e)
  | none =>
    let b2 := if b1.stdOutWriter.isNone then { b1 with stdOut := env.stdoutData } else b1
    let b3 := { b2 with stdErr := env.stderrData }
    if 0 < b1.timeout ∧ env.ctxDeadlineExceeded = true then (b3, .deadlineExceeded)
    else
      match env.waitErr with
      | some e => (b3, .waitError e)
      | none => (b3, .ok)

/-- Go method BinWrapper.Run: run findExisting first when a source list
is configured and return its error unchanged on failure, then hand over
to the spawn-drain-wait tail. -/
def BinWrapper.Run (b : BinWrapper) (goos goarch : String) (env : RunEnv) :
    BinWrapper × RunResult :=
  if b.src = [] then b.runSpawn goos goarch env
  else
    let r := b.findExisting goos goarch env.stat env.acq
    match r.2.1 with
    | some e => (r.1, .acqError e)
    | none => r.1.runSpawn goos goarch env

/-- Path leaves the run-state fields used by Run untouched. -/
theorem Path_run_frame (goos goarch : String) (b : BinWrapper) :
    (b.Path goos goarch).2.stdOut = b.stdOut ∧ (b.Path goos goarch).2.stdErr = b.stdErr ∧
    (b.Path goos goarch).2.stdOutWriter = b.stdOutWriter ∧
    (b.Path goos goarch).2.timeout = b.timeout := by
  unfold BinWrapper.Path
  cases h : osFilterObj goos goarch b.src with
  | none => exact ⟨rfl, rfl, rfl, rfl⟩
  | some src =>
    by_cases he : (src.execPath != "") = true
    · have hf := ExecPath_frame goos b src.execPath
      simp only [he, if_true]
      exact ⟨hf.2.2.2.2.2.2.1, hf.2.2.2.2.2.1, hf.2.2.2.2.2.2.2.2.1, hf.2.2.2.2.2.2.2.2.2.2.2.2.2⟩
    · simp only [he, if_false]
      exact ⟨rfl, rfl, rfl, rfl⟩

/-- ExecPath preserves the captured stdout buffer. -/
theorem ExecPath_stdOut (goos : String) (b : BinWrapper) (p : String) :
    (b.ExecPath goos p).stdOut = b.stdOut :=
  (ExecPath_frame goos b p).2.2.2.2.2.2.1

/-- ExecPath preserves the captured stderr buffer. -/
theorem ExecPath_stdErr (goos : String) (b : BinWrapper) (p : String) :
    (b.ExecPath goos p).stdErr = b.stdErr :=
  (ExecPath_frame goos b p).2.2.2.2.2.1

/-- ExecPath preserves the external stdout writer. -/
theorem ExecPath_stdOutWriter (goos : String) (b : BinWrapper) (p : String) :
    (b.ExecPath goos p).stdOutWriter = b.stdOutWriter :=
  (ExecPath_frame goos b p).2.2.2.2.2.2.2.2.1

/-- ExecPath preserves the timeout. -/
theorem ExecPath_timeout (goos : String) (b : BinWrapper) (p : String) :
    (b.ExecPath goos p).timeout = b.timeout :=
  (ExecPath_frame goos b p).2.2.2.2.2.2.2.2.2.2.2.2.2

/-- download leaves the run-state fields used by Run untouched. -/
theorem download_run_frame (b : BinWrapper) (goos goarch : String) (env : AcqEnv) :
    (b.download goos goarch env).1.stdOut = b.stdOut ∧
    (b.download goos goarch env).1.stdErr = b.stdErr ∧
    (b.download goos goarch env).1.stdOutWriter = b.stdOutWriter ∧
    (b.download goos goarch env).1.timeout = b.timeout := by
  unfold BinWrapper.download
  cases h : osFilterObj goos goarch b.src with
  | none => exact ⟨rfl, rfl, rfl, rfl⟩
  | some src =>
    cases hdf : env.downloadFile src.url with
    | error e => by_cases hd : b.dest = "" <;> simp [hd, hdf]
    | ok file =>
      cases hef : env.extractFile file with
      | some e => by_cases hd : b.dest = "" <;> simp [hd, hdf, hef]
      | none =>
        by_cases hd : b.dest = "" <;> by_cases he : (src.execPath != "") = true <;>
          simp [hd, hdf, hef, he, ExecPath_stdOut, ExecPath_stdErr,
            ExecPath_stdOutWriter, ExecPath_timeout]

/-- findExisting leaves the run-state fields used by Run untouched. -/
theorem findExisting_run_frame (b : BinWrapper) (goos goarch : String) (st : StatRes)
    (env : AcqEnv) :
    (b.findExisting goos goarch st env).1.stdOut = b.stdOut ∧
    (b.findExisting goos goarch st env).1.stdErr = b.stdErr ∧
    (b.findExisting goos goarch st env).1.stdOutWriter = b.stdOutWriter ∧
    (b.findExisting goos goarch st env).1.timeout = b.timeout := by
  have hp := Path_run_frame goos goarch b
  have hd := download_run_frame (b.Path goos goarch).2 goos goarch env
  unfold BinWrapper.findExisting
  cases st with
  | notExist =>
    exact ⟨hd.1.trans hp.1, hd.2.1.trans hp.2.1,
      hd.2.2.1.trans hp.2.2.1, hd.2.2.2.trans hp.2.2.2⟩
  | errOther e => exact ⟨hp.1, hp.2.1, hp.2.2.1, hp.2.2.2⟩
  | ok => exact ⟨hp.1, hp.2.1, hp.2.2.1, hp.2.2.2⟩

/-- Buffer contents after the spawn-drain-wait tail of Run: stdout is
overwritten only on a successful start in captured mode, stderr only on
a successful start; nothing is cleared beforehand. -/
theorem runSpawn_buffers (goos goarch : String) (b : BinWrapper) (env : RunEnv) :
    ((b.runSpawn goos goarch env).1.stdOut =
      if env.startErr = none ∧ b.stdOutWriter = none then env.stdoutData else b.stdOut) ∧
    ((b.runSpawn goos goarch env).1.stdErr =
      if env.startErr = none then env.stderrData else b.stdErr) := by
  unfold BinWrapper.runSpawn
  have hp := Path_run_frame goos goarch b
  cases hs : env.startErr with
  | some e => simp [hs, hp.1, hp.2.1]
  | none =>
    cases hw : b.stdOutWriter with
    | some w =>
      by_cases ht : (0 < ({ (b.Path goos goarch).2 with cmd := some () } : BinWrapper).timeout
          ∧ env.ctxDeadlineExceeded = true) <;>
        cases hwe : env.waitErr <;>
        simp [hs, ht, hwe, hp.1, hp.2.1, hp.2.2.1, hw]
    | none =>
      by_cases ht : (0 < ({ (b.Path goos goarch).2 with cmd := some () } : BinWrapper).timeout
          ∧ env.ctxDeadlineExceeded = true) <;>
        cases hwe : env.waitErr <;>
        simp [hs, ht, hwe, hp.1, hp.2.1, hp.2.2.1, hw]

/-- C2 counterexample: Run does not clear previously captured output
before spawning.  A Run that fails to start leaves the bytes captured
by an earlier Run fully visible in both buffers. -/
theorem run_stale_buffers_on_start_failure :
    (BinWrapper.Run { NewBinWrapper with execPath := "x", stdOut := [1, 2], stdErr := [3] }
        "linux" "amd64"
        ⟨.ok, ⟨fun _ => Except.error "down", fun _ => none⟩, some "spawn failed",
          [9], none, [8], none, none, false⟩).1.stdOut = [1, 2] ∧
    (BinWrapper.Run { NewBinWrapper with execPath := "x", stdOut := [1, 2], stdErr := [3] }
        "linux" "amd64"
        ⟨.ok, ⟨fun _ => Except.error "down", fun _ => none⟩, some "spawn failed",
          [9], none, [8], none, none, false⟩).1.stdErr = [3] :=
  ⟨rfl, rfl⟩

/-- C2 (amended): Run overwrites the captured buffers only by actually
reading the pipes, never by clearing them first: after Run, stdout
holds the new bytes exactly when acquisition and start succeeded and no
external writer is configured, and otherwise still holds the earlier
bytes; stderr holds the new bytes exactly when acquisition and start
succeeded, and otherwise still holds the earlier bytes. -/
theorem run_buffer_overwrite (goos goarch : String) (b : BinWrapper) (env : RunEnv) :
    ((b.Run goos goarch env).1.stdOut =
      if (b.src = [] ∨ (b.findExisting goos goarch env.stat env.acq).2.1 = none)
          ∧ env.startErr = none ∧ b.stdOutWriter = none
      then env.stdoutData else b.stdOut) ∧
    ((b.Run goos goarch env).1.stdErr =
      if (b.src = [] ∨ (b.findExisting goos goarch env.stat env.acq).2.1 = none)
          ∧ env.startErr = none
      then env.stderrData else b.stdErr) := by
  unfold BinWrapper.Run
  by_cases hsrc : b.src = []
  · have hr := runSpawn_buffers goos goarch b env
    simp [hsrc, hr.1, hr.2]
  · cases hfe : (b.findExisting goos goarch env.stat env.acq).2.1 with
    | some e =>
      have hf := findExisting_run_frame b goos goarch env.stat env.acq
      simp [hsrc, hfe, hf.1, hf.2.1]
    | none =>
      have hf := findExisting_run_frame b goos goarch env.stat env.acq
      have hr := runSpawn_buffers goos goarch (b.findExisting goos goarch env.stat env.acq).1 env
      rw [hf.1, hf.2.1, hf.2.2.1] at hr
      simp [hsrc, hfe, hr.1, hr.2]

/-- The result of the spawn-drain-wait tail after a successful start:
an expired timeout context dominates, otherwise the wait outcome is
returned. -/
theorem runSpawn_result (goos goarch : String) (b : BinWrapper) (env : RunEnv)
    (hs : env.startErr = none) :
    (b.runSpawn goos goarch env).2 =
      if 0 < b.timeout ∧ env.ctxDeadlineExceeded = true then .deadlineExceeded
      else match env.waitErr with
        | some e => RunResult.waitError e
        | none => RunResult.ok := by
  unfold BinWrapper.runSpawn
  have hp := Path_run_frame goos goarch b
  by_cases hdl : (0 < b.timeout ∧ env.ctxDeadlineExceeded = true) <;>
    cases hwe : env.waitErr <;>
    simp [hs, hwe, hp.2.2.2, hdl]

/-- C3 counterexample: with a configured timeout that has expired, a
wait error and a broken-pipe read error all present at once, Run
returns the deadline-exceeded condition, and its entire outcome is
unchanged when the stream-read errors are removed from the environment:
stream-read errors never take priority over anything, they are
discarded. -/
theorem run_read_error_not_prioritized :
    (BinWrapper.Run { NewBinWrapper with execPath := "x", timeout := 5 } "linux" "amd64"
        ⟨.ok, ⟨fun _ => Except.error "down", fun _ => none⟩, none, [1], some "broken pipe",
          [2], some "broken pipe", some "exit status 1", true⟩).2 = .deadlineExceeded ∧
    (RunEnv.stdoutReadErr
        ⟨.ok, ⟨fun _ => Except.error "down", fun _ => none⟩, none, [1], some "broken pipe",
          [2], some "broken pipe", some "exit status 1", true⟩ = some "broken pipe") ∧
    BinWrapper.Run { NewBinWrapper with execPath := "x", timeout := 5 } "linux" "amd64"
        ⟨.ok, ⟨fun _ => Except.error "down", fun _ => none⟩, none, [1], some "broken pipe",
          [2], some "broken pipe", some "exit status 1", true⟩
      = BinWrapper.Run { NewBinWrapper with execPath := "x", timeout := 5 } "linux" "amd64"
        ⟨.ok, ⟨fun _ => Except.error "down", fun _ => none⟩, none, [1], none,
          [2], none, some "exit status 1", true⟩ :=
  ⟨rfl, rfl, rfl⟩

/-- C3 (amended): once acquisition and start succeed, an expired
timeout context makes Run return the dedicated deadline-exceeded
condition, taking priority over any wait error; without an expired
context Run surfaces the wait outcome; and the result is entirely
independent of the stream-read errors, which the code discards. -/
theorem run_error_priority (goos goarch : String) (b : BinWrapper) (env : RunEnv)
    (hacq : b.src = [] ∨ (b.findExisting goos goarch env.stat env.acq).2.1 = none)
    (hstart : env.startErr = none) :
    ((0 < b.timeout ∧ env.ctxDeadlineExceeded = true) →
        (b.Run goos goarch env).2 = .deadlineExceeded) ∧
    (env.ctxDeadlineExceeded = false →
        (b.Run goos goarch env).2 =
          match env.waitErr with
          | some e => RunResult.waitError e
          | none => RunResult.ok) ∧
    b.Run goos goarch env
      = b.Run goos goarch { env with stdoutReadErr := none, stderrReadErr := none } := by
  have key : (b.Run goos goarch env).2 =
      if 0 < b.timeout ∧ env.ctxDeadlineExceeded = true then .deadlineExceeded
      else match env.waitErr with
        | some e => RunResult.waitError e
        | none => RunResult.ok := by
    unfold BinWrapper.Run
    by_cases hsrc : b.src = []
    · simp [hsrc, runSpawn_result goos goarch b env hstart]
    · rcases hacq with hsrc2 | hfe
      · exact absurd hsrc2 hsrc
      · have hf := findExisting_run_frame b goos goarch env.stat env.acq
        have hr := runSpawn_result goos goarch
          (b.findExisting goos goarch env.stat env.acq).1 env hstart
        rw [hf.2.2.2] at hr
        simp [hsrc, hfe, hr]
  refine ⟨?_, ?_, rfl⟩
  · intro h
    rw [key]
    simp [h]
  · intro h
    rw [key]
    simp [h]

/-- C3 witness: the amended statement at a concrete wrapper whose
timeout context expired. -/
theorem run_error_priority_witness :
    (BinWrapper.Run { NewBinWrapper with execPath := "x", timeout := 7 } "linux" "amd64"
        ⟨.ok, ⟨fun _ => Except.error "down", fun _ => none⟩, none, [1], some "broken pipe",
          [2], none, some "exit status 1", true⟩).2 = .deadlineExceeded :=
  (run_error_priority "linux" "amd64" { NewBinWrapper with execPath := "x", timeout := 7 }
      ⟨.ok, ⟨fun _ => Except.error "down", fun _ => none⟩, none, [1], some "broken pipe",
        [2], none, some "exit status 1", true⟩ (Or.inl rfl) rfl).1 ⟨by decide, rfl⟩

/-- A Go slice header: backing array id, offset, length, capacity.
This level of detail is needed for CombinedOutput, whose body is a Go
append and therefore interacts with spare capacity of the stored
stdout buffer. -/
structure GoSlice where
  aid : Nat
  off : Nat
  len : Nat
  cap : Nat
deriving DecidableEq, Repr

/-- The heap of backing byte arrays, addressed by array id; next is the
first unused id. -/
structure Heap where
  arrays : Nat → List Nat
  next : Nat

/-- The byte sequence a slice denotes: the len bytes from off in its
backing array. -/
def sliceBytes (h : Heap) (s : GoSlice) : List Nat :=
  ((h.arrays s.aid).drop s.off).take s.len

/-- A well-formed slice: length within capacity and the capacity window
inside the backing array. -/
def sliceWF (h : Heap) (s : GoSlice) : Prop :=
  s.len ≤ s.cap ∧ s.off + s.cap ≤ (h.arrays s.aid).length

/-- Overwrite the bytes of an array from position i on with xs, keeping
the rest. -/
def writeRange (a : List Nat) (i : Nat) (xs : List Nat) : List Nat :=
  a.take i ++ xs ++ a.drop (i + xs.length)

/-- Replace one backing array of the heap. -/
def Heap.setArr (h : Heap) (i : Nat) (a : List Nat) : Heap :=
  ⟨fun j => if j = i then a else h.arrays j, h.next⟩

/-- Allocate a fresh backing array. -/
def Heap.alloc (h : Heap) (a : List Nat) : Heap × Nat :=
  (⟨fun j => if j = h.next then a else h.arrays j, h.next + 1⟩, h.next)

/-- Go append(dst, src...): when the combined length fits the capacity
of dst, the src bytes are written into the spare capacity of the
backing array of dst and the result aliases that array; otherwise a
fresh array holding the concatenation is allocated.  The runtime growth
policy only affects the capacity of the fresh array and is modelled as
exact. -/
def goAppend (h : Heap) (dst src : GoSlice) : Heap × GoSlice :=
  let n := dst.len + src.len
  if n ≤ dst.cap then
    (h.setArr dst.aid
        (writeRange (h.arrays dst.aid) (dst.off + dst.len) (sliceBytes h src)),
      ⟨dst.aid, dst.off, n, dst.cap⟩)
  else
    let r := h.alloc (sliceBytes h dst ++ sliceBytes h src)
    (r.1, ⟨r.2, 0, n, n⟩)

/-- Go method BinWrapper.CombinedOutput at the slice level: the body is
append(stdout, stderr...) and nothing is assigned back to the receiver,
so the stored slice headers are untouched; only the heap and the
returned slice change. -/
def CombinedOutput (h : Heap) (stdOut stdErr : GoSlice) : Heap × GoSlice :=
  goAppend h stdOut stdErr

/-- A well-formed slice denotes exactly len bytes. -/
theorem length_sliceBytes (h : Heap) (s : GoSlice) (hs : sliceWF h s) :
    (sliceBytes h s).length = s.len := by
  obtain ⟨h1, h2⟩ := hs
  unfold sliceBytes
  rw [List.length_take, List.length_drop]
  omega

/-- writeRange keeps the array length when the write fits. -/
theorem writeRange_length (a : List Nat) (i : Nat) (xs : List Nat)
    (hle : i + xs.length ≤ a.length) : (writeRange a i xs).length = a.length := by
  unfold writeRange
  simp only [List.length_append, List.length_take, List.length_drop]
  omega

/-- writeRange keeps everything strictly before the write position. -/
theorem writeRange_take (a : List Nat) (i : Nat) (xs : List Nat) (hi : i ≤ a.length) :
    (writeRange a i xs).take i = a.take i := by
  unfold writeRange
  have hl : (a.take i).length = i := by rw [List.length_take]; omega
  rw [List.append_assoc, List.take_append_eq_append_take, hl]
  simp [List.take_take]

/-- Two lists agreeing on a prefix agree on every window inside it. -/
theorem take_window_eq {l l2 : List Nat} {k off len : Nat}
    (hk : off + len ≤ k) (h : l.take k = l2.take k) :
    (l.drop off).take len = (l2.drop off).take len := by
  have h1 : l.take (off + len) = l2.take (off + len) := by
    have h2 := congrArg (List.take (off + len)) h
    rw [List.take_take, List.take_take, Nat.min_eq_left hk] at h2
    exact h2
  have e1 : (l.take (off + len)).drop off = (l.drop off).take len := by
    rw [List.drop_take]
    congr 1
    omega
  have e2 : (l2.take (off + len)).drop off = (l2.drop off).take len := by
    rw [List.drop_take]
    congr 1
    omega
  rw [← e1, ← e2, h1]

/-- Reading back the replaced array of setArr. -/
theorem setArr_get_same (h : Heap) (i : Nat) (a : List Nat) :
    (h.setArr i a).arrays i = a := by
  unfold Heap.setArr
  simp

/-- Reading any other array of setArr. -/
theorem setArr_get_other (h : Heap) (i : Nat) (a : List Nat) (j : Nat) (hj : j ≠ i) :
    (h.setArr i a).arrays j = h.arrays j := by
  unfold Heap.setArr
  simp [hj]

/-- The window arithmetic of an in-place append: after writing xs at
position off + len, reading len + length xs bytes from off yields the
old len-byte window followed by xs. -/
theorem take_drop_writeRange (a : List Nat) (off len : Nat) (xs : List Nat)
    (hle : off + len + xs.length ≤ a.length) :
    ((writeRange a (off + len) xs).drop off).take (len + xs.length)
      = (a.drop off).take len ++ xs := by
  unfold writeRange
  have hl : (a.take (off + len)).length = off + len := by
    rw [List.length_take]
    omega
  rw [List.append_assoc,
    List.drop_append_of_le_length (by omega : off ≤ (a.take (off + len)).length),
    List.take_append_eq_append_take]
  have hdl : ((a.take (off + len)).drop off).length = len := by
    rw [List.length_drop, hl]
    omega
  rw [List.take_of_length_le (by rw [hdl]; omega), hdl]
  have h2 : len + xs.length - len = xs.length := by omega
  rw [h2, List.take_left' rfl]
  congr 1
  rw [List.drop_take]
  congr 1
  omega

/-- The bytes produced by goAppend are always the concatenation of the
bytes of its two arguments (whether or not the backing array is
shared). -/
theorem goAppend_bytes (h : Heap) (dst src : GoSlice)
    (hd : sliceWF h dst) (hs : sliceWF h src) :
    sliceBytes (goAppend h dst src).1 (goAppend h dst src).2
      = sliceBytes h dst ++ sliceBytes h src := by
  obtain ⟨hd1, hd2⟩ := hd
  have hxs : (sliceBytes h src).length = src.len := length_sliceBytes h src hs
  unfold goAppend
  by_cases hc : dst.len + src.len ≤ dst.cap
  · simp only [hc, if_pos]
    show (((h.setArr dst.aid (writeRange (h.arrays dst.aid) (dst.off + dst.len)
          (sliceBytes h src))).arrays dst.aid).drop dst.off).take (dst.len + src.len)
      = sliceBytes h dst ++ sliceBytes h src
    rw [setArr_get_same]
    have hn : dst.len + src.len = dst.len + (sliceBytes h src).length := by rw [hxs]
    rw [hn, take_drop_writeRange (h.arrays dst.aid) dst.off dst.len (sliceBytes h src)
      (by rw [hxs]; omega)]
    rfl
  · simp only [hc, if_neg, not_false_iff]
    show ((if h.next = h.next then sliceBytes h dst ++ sliceBytes h src
        else h.arrays h.next).drop 0).take (dst.len + src.len)
      = sliceBytes h dst ++ sliceBytes h src
    rw [if_pos rfl, List.drop_zero]
    apply List.take_of_length_le
    rw [List.length_append, hxs, length_sliceBytes h dst ⟨hd1, hd2⟩]

/-- goAppend leaves the bytes of any slice over a different live array
unchanged. -/
theorem goAppend_preserves_other (h : Heap) (dst src s : GoSlice)
    (hne : s.aid ≠ dst.aid) (hlive : s.aid < h.next) :
    sliceBytes (goAppend h dst src).1 s = sliceBytes h s := by
  unfold goAppend sliceBytes
  by_cases hc : dst.len + src.len ≤ dst.cap
  · simp only [hc, if_pos]
    show (((Heap.setArr h dst.aid _).arrays s.aid).drop s.off).take s.len = _
    unfold Heap.setArr
    simp [hne]
  · simp only [hc, if_neg, not_false_iff]
    have : s.aid ≠ h.next := by omega
    show (((if s.aid = h.next then _ else h.arrays s.aid) : List Nat).drop s.off).take s.len = _
    simp [this]

/-- goAppend leaves the visible bytes of dst unchanged: the write lands
entirely in the spare capacity beyond len (or in a fresh array). -/
theorem goAppend_preserves_dst (h : Heap) (dst src : GoSlice)
    (hd : sliceWF h dst) (hlive : dst.aid < h.next) :
    sliceBytes (goAppend h dst src).1 dst = sliceBytes h dst := by
  obtain ⟨hd1, hd2⟩ := hd
  unfold goAppend
  by_cases hc : dst.len + src.len ≤ dst.cap
  · simp only [hc, if_pos]
    unfold sliceBytes Heap.setArr
    simp only [if_pos rfl]
    exact take_window_eq (le_refl (dst.off + dst.len))
      (writeRange_take (h.arrays dst.aid) (dst.off + dst.len) (sliceBytes h src)
        (by omega))
  · simp only [hc, if_neg, not_false_iff]
    have hne : dst.aid ≠ h.next := by omega
    unfold sliceBytes Heap.alloc
    simp [hne]

/-- goAppend does not shrink the id frontier and keeps the length of
every live backing array (the in-place write fits, a fresh array is
beyond the frontier). -/
theorem goAppend_heap_geometry (h : Heap) (dst src : GoSlice)
    (hd : sliceWF h dst) (hs : sliceWF h src) :
    h.next ≤ (goAppend h dst src).1.next ∧
    ∀ j, j < h.next →
      ((goAppend h dst src).1.arrays j).length = (h.arrays j).length := by
  obtain ⟨hd1, hd2⟩ := hd
  have hxs : (sliceBytes h src).length = src.len := length_sliceBytes h src hs
  unfold goAppend
  by_cases hc : dst.len + src.len ≤ dst.cap
  · simp only [hc, if_pos]
    refine ⟨le_refl _, ?_⟩
    intro j hj
    unfold Heap.setArr
    by_cases hje : j = dst.aid
    · subst hje
      simp only [if_pos rfl]
      exact writeRange_length _ _ _ (by rw [hxs]; omega)
    · simp [hje]
  · simp only [hc, if_neg, not_false_iff]
    refine ⟨?_, ?_⟩
    · show h.next ≤ h.next + 1
      omega
    · intro j hj
      have hne : j ≠ h.next := by omega
      show (if j = h.next then sliceBytes h dst ++ sliceBytes h src
          else h.arrays j).length = (h.arrays j).length
      simp [hne]

/-- Well-formedness and liveness of a slice survive a goAppend on live
well-formed arguments. -/
theorem goAppend_preserves_WF (h : Heap) (dst src s : GoSlice)
    (hd : sliceWF h dst) (hs : sliceWF h src)
    (hw : sliceWF h s) (hlive : s.aid < h.next) :
    sliceWF (goAppend h dst src).1 s ∧ s.aid < (goAppend h dst src).1.next := by
  obtain ⟨hg1, hg2⟩ := goAppend_heap_geometry h dst src hd hs
  refine ⟨⟨hw.1, ?_⟩, by omega⟩
  rw [hg2 s.aid hlive]
  exact hw.2

/-- C8 counterexample: with spare capacity in the stored stdout buffer
(the normal situation for a ReadAll result), the slice returned by
CombinedOutput shares the backing array of the stored stdout buffer and
the append writes the stderr byte into that very array: the returned
concatenation is not a fresh buffer and does alias the stored one. -/
theorem CombinedOutput_aliases :
    (CombinedOutput
        ⟨fun j => if j = 0 then [10, 20, 0, 0, 0, 0, 0, 0]
                  else if j = 1 then [30] else [], 2⟩
        ⟨0, 0, 2, 8⟩ ⟨1, 0, 1, 1⟩).2.aid = (⟨0, 0, 2, 8⟩ : GoSlice).aid ∧
    (CombinedOutput
        ⟨fun j => if j = 0 then [10, 20, 0, 0, 0, 0, 0, 0]
                  else if j = 1 then [30] else [], 2⟩
        ⟨0, 0, 2, 8⟩ ⟨1, 0, 1, 1⟩).1.arrays 0 = [10, 20, 30, 0, 0, 0, 0, 0] ∧
    (Heap.arrays
        ⟨fun j => if j = 0 then [10, 20, 0, 0, 0, 0, 0, 0]
                  else if j = 1 then [30] else [], 2⟩ 0)
      = [10, 20, 0, 0, 0, 0, 0, 0] :=
  ⟨rfl, rfl, rfl⟩

/-- C8 (amended): CombinedOutput returns the captured stdout followed
by the captured stderr; the returned slice may share the backing array
of the stored stdout buffer when its spare capacity suffices, but the
stored slice headers are never reassigned, the visible bytes of stdout
and stderr are untouched (the write lands beyond len), calling
CombinedOutput twice in a row returns byte-identical results, and what
StdOut() denotes afterwards is unchanged. -/
theorem CombinedOutput_observational (h : Heap) (so se : GoSlice)
    (hso : sliceWF h so) (hse : sliceWF h se) (haid : so.aid ≠ se.aid)
    (hlso : so.aid < h.next) (hlse : se.aid < h.next) :
    sliceBytes (CombinedOutput h so se).1 (CombinedOutput h so se).2
        = sliceBytes h so ++ sliceBytes h se ∧
    sliceBytes (CombinedOutput h so se).1 so = sliceBytes h so ∧
    sliceBytes (CombinedOutput h so se).1 se = sliceBytes h se ∧
    sliceBytes (CombinedOutput (CombinedOutput h so se).1 so se).1
        (CombinedOutput (CombinedOutput h so se).1 so se).2
      = sliceBytes (CombinedOutput h so se).1 (CombinedOutput h so se).2 ∧
    sliceBytes (CombinedOutput (CombinedOutput h so se).1 so se).1 so
      = sliceBytes h so ∧
    (CombinedOutput h so se).2.len = so.len + se.len := by
  obtain ⟨hso2, hlso2⟩ := goAppend_preserves_WF h so se so hso hse hso hlso
  obtain ⟨hse2, hlse2⟩ := goAppend_preserves_WF h so se se hso hse hse hlse
  have b1 := goAppend_bytes h so se hso hse
  have p1 := goAppend_preserves_dst h so se hso hlso
  have q1 := goAppend_preserves_other h so se se haid.symm hlse
  have b2 := goAppend_bytes (goAppend h so se).1 so se hso2 hse2
  have p2 := goAppend_preserves_dst (goAppend h so se).1 so se hso2 hlso2
  have hlen : (goAppend h so se).2.len = so.len + se.len := by
    unfold goAppend
    by_cases hc : so.len + se.len ≤ so.cap <;> simp [hc]
  refine ⟨b1, p1, q1, ?_, ?_, hlen⟩
  · show sliceBytes (goAppend (goAppend h so se).1 so se).1
        (goAppend (goAppend h so se).1 so se).2
      = sliceBytes (goAppend h so se).1 (goAppend h so se).2
    rw [b2, b1, p1, q1]
  · show sliceBytes (goAppend (goAppend h so se).1 so se).1 so = sliceBytes h so
    rw [p2, p1]

/-- C8 witness: the amended statement at a concrete heap with spare
capacity in the stdout buffer. -/
theorem CombinedOutput_observational_witness :
    sliceBytes
        (CombinedOutput
          ⟨fun j => if j = 0 then [10, 20, 0, 0, 0, 0, 0, 0]
                    else if j = 1 then [30] else [], 2⟩
          ⟨0, 0, 2, 8⟩ ⟨1, 0, 1, 1⟩).1
        (CombinedOutput
          ⟨fun j => if j = 0 then [10, 20, 0, 0, 0, 0, 0, 0]
                    else if j = 1 then [30] else [], 2⟩
          ⟨0, 0, 2, 8⟩ ⟨1, 0, 1, 1⟩).2
      = [10, 20] ++ [30] :=
  (CombinedOutput_observational
      ⟨fun j => if j = 0 then [10, 20, 0, 0, 0, 0, 0, 0]
                else if j = 1 then [30] else [], 2⟩
      ⟨0, 0, 2, 8⟩ ⟨1, 0, 1, 1⟩
      ⟨by decide, by decide⟩ ⟨by decide, by decide⟩ (by decide)
      (by decide) (by decide)).1

/-- A node of the modelled filesystem: a file, or a directory holding
its named entries in the order ReadDir enumerates them (name-sorted on
a real system; the development is generic in that order). -/
inductive FS where
  | file
  | dir (entries : List (String × FS))

/-- First entry with a given name in a directory listing. -/
def findEntry : List (String × FS) → String → Option FS
  | [], _ => none
  | (n, f) :: rest, name => if n = name then some f else findEntry rest name

/-- Remove the entry with a given name (no-op when absent). -/
def eraseEntry : List (String × FS) → String → List (String × FS)
  | [], _ => []
  | (n, f) :: rest, name => if n = name then rest else (n, f) :: eraseEntry rest name

/-- Replace the entry with a given name, or append a new one. -/
def setEntry : List (String × FS) → String → FS → List (String × FS)
  | [], name, node => [(name, node)]
  | (n, f) :: rest, name, node =>
    if n = name then (n, node) :: rest else (n, f) :: setEntry rest name node

/-- Resolve a path (relative to the node) to a subtree. -/
def lookupFS : List String → FS → Option FS
  | [], fs => some fs
  | _ :: _, FS.file => none
  | n :: p, FS.dir es =>
    match findEntry es n with
    | some f => lookupFS p f
    | none => none

/-- Remove the subtree at a path, as os.RemoveAll does: a no-op when the
path does not exist. -/
def removePath : List String → FS → FS
  | [], fs => fs
  | [n], FS.dir es => FS.dir (eraseEntry es n)
  | [_], FS.file => FS.file
  | n :: p :: ps, FS.dir es =>
    match findEntry es n with
    | some f => FS.dir (setEntry es n (removePath (p :: ps) f))
    | none => FS.dir es
  | _ :: _ :: _, FS.file => FS.file

/-- Place a node at a path whose parent directory exists. -/
def insertPath : List String → FS → FS → FS
  | [], node, _ => node
  | [n], node, FS.dir es => FS.dir (setEntry es n node)
  | [_], _, FS.file => FS.file
  | n :: p :: ps, node, FS.dir es =>
    match findEntry es n with
    | some f => FS.dir (setEntry es n (insertPath (p :: ps) node f))
    | none => FS.dir es
  | _ :: _ :: _, _, FS.file => FS.file

/-- os.Rename src dst on the modelled tree: fails when src does not
exist; otherwise the subtree moves.  On the paths stripDir produces
under the theorems below the destination name is fresh, so the
overwrite corner cases of the real rename do not arise. -/
def renameFS (fs : FS) (src dst : List String) : Option FS :=
  match lookupFS src fs with
  | some node => some (insertPath dst node (removePath src fs))
  | none => none

/-- The inner scan of the stripDir descend loop: the name of the first
directory entry of a listing. -/
def firstDir : List (String × FS) → Option String
  | [] => none
  | (n, FS.dir _) :: _ => some n
  | (_, FS.file) :: rest => firstDir rest

/-- The descend loop of stripDir: strip iterations; each reads the
current directory, records it for later removal unless it is the
destination root, and moves into its first subdirectory; a level
without subdirectory leaves the position unchanged; a ReadDir failure
(path resolving to nothing or to a file) aborts. -/
def descend (root : FS) : Nat → List String → List (List String) →
    Option (List String × List (List String))
  | 0, dir, acc => some (dir, acc)
  | Nat.succ k, dir, acc =>
    match lookupFS dir root with
    | some (FS.dir es) =>
      match firstDir es with
      | some n => descend root k (dir ++ [n]) (if dir = [] then acc else acc ++ [dir])
      | none => descend root k dir acc
    | _ => none

/-- The move loop of stripDir: rename each listed entry of the
innermost directory to the destination root, in listing order; failOn
injects an environment failure of a rename by entry name; the first
failure aborts, keeping the moves already performed. -/
def moveEntries (dir : List String) (failOn : String → Bool) :
    List String → FS → FS × Bool
  | [], fs => (fs, true)
  | n :: rest, fs =>
    if failOn n then (fs, false)
    else
      match renameFS fs (dir ++ [n]) [n] with
      | some fs2 => moveEntries dir failOn rest fs2
      | none => (fs, false)

/-- The cleanup loop of stripDir: os.RemoveAll on each recorded
directory, errors ignored. -/
def removeDirs : List (List String) → FS → FS
  | [], fs => fs
  | p :: rest, fs => removeDirs rest (removePath p fs)

/-- Go method BinWrapper.stripDir on the modelled destination tree
(paths relative to dest, dest itself being the root): descend strip
levels, read the innermost directory, move each of its entries up to
the root aborting on the first rename failure, then remove the
recorded intermediate directories.  The Bool reports success.  The Go
strip counter is an int; a non-positive value runs zero iterations, so
Nat carries the same information. -/
def stripDir (strip : Nat) (failOn : String → Bool) (root : FS) : FS × Bool :=
  match descend root strip [] [] with
  | none => (root, false)
  | some (dir, toRemove) =>
    match lookupFS dir root with
    | some (FS.dir es) =>
      let r := moveEntries dir failOn (es.map Prod.fst) root
      if r.2 then (removeDirs toRemove r.1, true) else r
    | _ => (root, false)

/-- A destination tree nesting content inside exactly one wrapper
directory per level: each wrapper holds only the next, the innermost
holds the given entries. -/
def mkChain : List String → List (String × FS) → List (String × FS)
  | [], inner => inner
  | w :: ws, inner => [(w, FS.dir (mkChain ws inner))]

/-- The directories the descend loop records when it starts below the
root: the current position before each step. -/
def recordDirs (pre : List String) : List String → List (List String)
  | [] => []
  | w :: ws => pre :: recordDirs (pre ++ [w]) ws

/-- Looking up a name that is absent finds nothing. -/
theorem findEntry_not_mem (es : List (String × FS)) (n : String)
    (h : n ∉ es.map Prod.fst) : findEntry es n = none := by
  induction es with
  | nil => rfl
  | cons e rest ih =>
    obtain ⟨m, f⟩ := e
    simp only [List.map_cons, List.mem_cons, not_or] at h
    have hmn : ¬ (m = n) := fun e => h.1 e.symm
    simp [findEntry, hmn, ih h.2]

/-- Erasing a name that is absent is a no-op. -/
theorem eraseEntry_not_mem (es : List (String × FS)) (n : String)
    (h : n ∉ es.map Prod.fst) : eraseEntry es n = es := by
  induction es with
  | nil => rfl
  | cons e rest ih =>
    obtain ⟨m, f⟩ := e
    simp only [List.map_cons, List.mem_cons, not_or] at h
    have hmn : ¬ (m = n) := fun e => h.1 e.symm
    simp [eraseEntry, hmn, ih h.2]

/-- Setting a fresh name appends the entry at the end of the listing. -/
theorem setEntry_fresh (es : List (String × FS)) (n : String) (f : FS)
    (h : n ∉ es.map Prod.fst) : setEntry es n f = es ++ [(n, f)] := by
  induction es with
  | nil => rfl
  | cons e rest ih =>
    obtain ⟨m, g⟩ := e
    simp only [List.map_cons, List.mem_cons, not_or] at h
    have hmn : ¬ (m = n) := fun e => h.1 e.symm
    simp [setEntry, hmn, ih h.2]

/-- Path resolution splits over path concatenation. -/
theorem lookupFS_append (p q : List String) (fs : FS) :
    lookupFS (p ++ q) fs =
      match lookupFS p fs with
      | some f => lookupFS q f
      | none => none := by
  induction p generalizing fs with
  | nil => cases fs <;> simp [lookupFS]
  | cons n p ih =>
    cases fs with
    | file => rfl
    | dir es =>
      cases hfe : findEntry es n with
      | some f => simpa [lookupFS, hfe] using ih f
      | none => simp [lookupFS, hfe]

/-- Resolving a path that starts with the wrapper chain lands in the
inner tree. -/
theorem lookup_mkChain (ws : List String) (es : List (String × FS)) (p : List String) :
    lookupFS (ws ++ p) (FS.dir (mkChain ws es)) = lookupFS p (FS.dir es) := by
  induction ws with
  | nil => rfl
  | cons w ws ih =>
    simp only [mkChain, List.cons_append]
    simp [lookupFS, findEntry, ih]

/-- Removing the entry n of the innermost directory of a chain rebuilds
the chain around the reduced listing. -/
theorem removePath_mkChain_last (ws : List String) (es : List (String × FS)) (n : String) :
    removePath (ws ++ [n]) (FS.dir (mkChain ws es))
      = FS.dir (mkChain ws (eraseEntry es n)) := by
  induction ws with
  | nil => rfl
  | cons w ws ih =>
    simp only [mkChain, List.cons_append]
    cases hws : ws ++ [n] with
    | nil => exact absurd hws (by simp)
    | cons q qs =>
      have h1 : findEntry [(w, FS.dir (mkChain ws es))] w
          = some (FS.dir (mkChain ws es)) := by simp [findEntry]
      rw [removePath, h1]
      show FS.dir (setEntry [(w, FS.dir (mkChain ws es))] w
          (removePath (q :: qs) (FS.dir (mkChain ws es))))
        = FS.dir [(w, FS.dir (mkChain ws (eraseEntry es n)))]
      rw [← hws, ih]
      simp [setEntry]

/-- Removing a path whose first component is absent is a no-op. -/
theorem removePath_head_not_mem (w : String) (t : List String) (es : List (String × FS))
    (h : w ∉ es.map Prod.fst) : removePath (w :: t) (FS.dir es) = FS.dir es := by
  cases t with
  | nil => simp [removePath, eraseEntry_not_mem es w h]
  | cons q qs => simp [removePath, findEntry_not_mem es w h]

/-- One rename of the stripDir move loop on a chain-shaped tree: the
head entry of the innermost directory moves to the end of the root
listing. -/
theorem renameFS_chain_step (w : String) (ws : List String) (n : String) (f : FS)
    (rest moved : List (String × FS)) (hnw : ¬ n = w) (hnm : n ∉ moved.map Prod.fst) :
    renameFS (FS.dir (mkChain (w :: ws) ((n, f) :: rest) ++ moved)) ((w :: ws) ++ [n]) [n]
      = some (FS.dir (mkChain (w :: ws) rest ++ (moved ++ [(n, f)]))) := by
  have hfresh : n ∉ ((w, FS.dir (mkChain ws rest)) :: moved).map Prod.fst := by
    simp only [List.map_cons, List.mem_cons, not_or]
    exact ⟨hnw, hnm⟩
  have hlook : lookupFS ((w :: ws) ++ [n])
      (FS.dir (mkChain (w :: ws) ((n, f) :: rest) ++ moved)) = some f := by
    simp only [mkChain, List.singleton_append, List.cons_append]
    simp [lookupFS, findEntry, lookup_mkChain]
  have hrem : removePath ((w :: ws) ++ [n])
      (FS.dir (mkChain (w :: ws) ((n, f) :: rest) ++ moved))
      = FS.dir ((w, FS.dir (mkChain ws rest)) :: moved) := by
    simp only [mkChain, List.singleton_append, List.cons_append]
    cases hws : ws ++ [n] with
    | nil => exact absurd hws (by simp)
    | cons q qs =>
      have h1 : findEntry ((w, FS.dir (mkChain ws ((n, f) :: rest))) :: ([] ++ moved)) w
          = some (FS.dir (mkChain ws ((n, f) :: rest))) := by simp [findEntry]
      rw [removePath, h1]
      show FS.dir (setEntry ((w, FS.dir (mkChain ws ((n, f) :: rest))) :: ([] ++ moved)) w
          (removePath (q :: qs) (FS.dir (mkChain ws ((n, f) :: rest)))))
        = FS.dir ((w, FS.dir (mkChain ws rest)) :: moved)
      rw [← hws, removePath_mkChain_last]
      simp [setEntry, eraseEntry]
  have hins : insertPath [n] f (FS.dir ((w, FS.dir (mkChain ws rest)) :: moved))
      = FS.dir (((w, FS.dir (mkChain ws rest)) :: moved) ++ [(n, f)]) := by
    simp only [insertPath]
    rw [setEntry_fresh _ _ _ hfresh]
  unfold renameFS
  rw [hlook]
  show some (insertPath [n] f (removePath ((w :: ws) ++ [n])
      (FS.dir (mkChain (w :: ws) ((n, f) :: rest) ++ moved)))) = _
  rw [hrem, hins]
  simp [mkChain]

/-- The move loop succeeds on a chain when no entry name triggers a
failure: all innermost entries end up appended to the root listing in
order, the innermost directory is left empty. -/
theorem moveEntries_chain_ok (w : String) (ws : List String) (failOn : String → Bool) :
    ∀ (rest : List (String × FS)), ∀ (moved : List (String × FS)),
    (∀ n ∈ rest.map Prod.fst, failOn n = false) →
    (∀ n ∈ rest.map Prod.fst, ¬ n = w) →
    (∀ n ∈ rest.map Prod.fst, n ∉ moved.map Prod.fst) →
    (rest.map Prod.fst).Nodup →
    moveEntries (w :: ws) failOn (rest.map Prod.fst)
        (FS.dir (mkChain (w :: ws) rest ++ moved))
      = (FS.dir (mkChain (w :: ws) [] ++ (moved ++ rest)), true) := by
  intro rest
  induction rest with
  | nil =>
    intro moved _ _ _ _
    simp [moveEntries]
  | cons e rest ih =>
    obtain ⟨n, f⟩ := e
    intro moved hf hw hm hnd
    have hfn : failOn n = false := hf n (by simp)
    have hnw : ¬ n = w := hw n (by simp)
    have hnm : n ∉ moved.map Prod.fst := hm n (by simp)
    simp only [List.map_cons] at hnd ⊢
    rw [moveEntries, hfn]
    simp only [Bool.false_eq_true, if_false]
    rw [renameFS_chain_step w ws n f rest moved hnw hnm]
    show moveEntries (w :: ws) failOn (List.map Prod.fst rest)
        (FS.dir (mkChain (w :: ws) rest ++ (moved ++ [(n, f)]))) = _
    have ih2 := ih (moved ++ [(n, f)])
      (fun x hx => hf x (by simp [hx]))
      (fun x hx => hw x (by simp [hx]))
      (fun x hx => by
        simp only [List.map_append, List.mem_append, not_or]
        refine ⟨hm x (by simp [hx]), ?_⟩
        simp only [List.map_cons, List.map_nil, List.mem_singleton]
        intro he
        subst he
        exact (List.nodup_cons.mp hnd).1 hx)
      (List.nodup_cons.mp hnd).2
    rw [ih2]
    simp

/-- The move loop aborts at the first entry whose rename fails, keeping
the moves already performed and leaving the rest of the chain in
place. -/
theorem moveEntries_chain_fail (w : String) (ws : List String) (failOn : String → Bool) :
    ∀ (pre : List (String × FS)), ∀ (m : String) (fm : FS)
      (post moved : List (String × FS)),
    (∀ n ∈ pre.map Prod.fst, failOn n = false) →
    failOn m = true →
    (∀ n ∈ pre.map Prod.fst, ¬ n = w) →
    (∀ n ∈ pre.map Prod.fst, n ∉ moved.map Prod.fst) →
    ((pre.map Prod.fst).Nodup) →
    moveEntries (w :: ws) failOn ((pre ++ (m, fm) :: post).map Prod.fst)
        (FS.dir (mkChain (w :: ws) (pre ++ (m, fm) :: post) ++ moved))
      = (FS.dir (mkChain (w :: ws) ((m, fm) :: post) ++ (moved ++ pre)), false) := by
  intro pre
  induction pre with
  | nil =>
    intro m fm post moved _ hfm _ _ _
    simp [moveEntries, hfm]
  | cons e pre ih =>
    obtain ⟨n, f⟩ := e
    intro m fm post moved hf hfm hw hm hnd
    have hfn : failOn n = false := hf n (by simp)
    have hnw : ¬ n = w := hw n (by simp)
    have hnm : n ∉ moved.map Prod.fst := hm n (by simp)
    simp only [List.cons_append, List.map_cons] at hnd ⊢
    rw [moveEntries, hfn]
    simp only [Bool.false_eq_true, if_false]
    rw [renameFS_chain_step w ws n f (pre ++ (m, fm) :: post) moved hnw hnm]
    show moveEntries (w :: ws) failOn (List.map Prod.fst (pre ++ (m, fm) :: post))
        (FS.dir (mkChain (w :: ws) (pre ++ (m, fm) :: post) ++ (moved ++ [(n, f)]))) = _
    have ih2 := ih m fm post (moved ++ [(n, f)])
      (fun x hx => hf x (by simp [hx]))
      hfm
      (fun x hx => hw x (by simp [hx]))
      (fun x hx => by
        simp only [List.map_append, List.mem_append, not_or]
        refine ⟨hm x (by simp [hx]), ?_⟩
        simp only [List.map_cons, List.map_nil, List.mem_singleton]
        intro he
        subst he
        exact (List.nodup_cons.mp hnd).1 hx)
      (List.nodup_cons.mp hnd).2
    rw [ih2]
    simp

/-- The descend loop below the root: on a chain it records each current
position and ends at the innermost directory. -/
theorem descend_chain_aux (root : FS) (inner : List (String × FS)) :
    ∀ (ws pre : List String) (acc : List (List String)),
    pre ≠ [] →
    lookupFS pre root = some (FS.dir (mkChain ws inner)) →
    descend root ws.length pre acc = some (pre ++ ws, acc ++ recordDirs pre ws) := by
  intro ws
  induction ws with
  | nil =>
    intro pre acc _ _
    simp [descend, recordDirs]
  | cons w ws ih =>
    intro pre acc hpre hlk
    have hfd : firstDir (mkChain (w :: ws) inner) = some w := by
      simp [mkChain, firstDir]
    have hlk2 : lookupFS (pre ++ [w]) root = some (FS.dir (mkChain ws inner)) := by
      rw [lookupFS_append, hlk]
      simp [lookupFS, mkChain, findEntry]
    show descend root (Nat.succ ws.length) pre acc = _
    rw [descend, hlk]
    show (match firstDir (mkChain (w :: ws) inner) with
      | some n => descend root ws.length (pre ++ [n]) (if pre = [] then acc else acc ++ [pre])
      | none => descend root ws.length pre acc) = _
    rw [hfd]
    show descend root ws.length (pre ++ [w]) (if pre = [] then acc else acc ++ [pre]) = _
    rw [if_neg hpre, ih (pre ++ [w]) (acc ++ [pre]) (by simp) hlk2]
    simp [recordDirs]

/-- The whole descend phase on a chain-shaped destination: it ends at
the innermost directory and records exactly the intermediate wrapper
directories — the root is never recorded, and neither is the innermost
level reached last. -/
theorem descend_chain (w : String) (ws : List String) (inner : List (String × FS)) :
    descend (FS.dir (mkChain (w :: ws) inner)) (w :: ws).length [] []
      = some (w :: ws, recordDirs [w] ws) := by
  have hfd : firstDir (mkChain (w :: ws) inner) = some w := by
    simp [mkChain, firstDir]
  have hlk2 : lookupFS [w] (FS.dir (mkChain (w :: ws) inner))
      = some (FS.dir (mkChain ws inner)) := by
    simp [lookupFS, mkChain, findEntry]
  show descend _ (Nat.succ ws.length) [] [] = _
  rw [descend]
  show (match firstDir (mkChain (w :: ws) inner) with
    | some n => descend (FS.dir (mkChain (w :: ws) inner)) ws.length ([] ++ [n])
        (if ([] : List String) = [] then [] else [] ++ [[]])
    | none => descend (FS.dir (mkChain (w :: ws) inner)) ws.length [] []) = _
  rw [hfd]
  show descend (FS.dir (mkChain (w :: ws) inner)) ws.length [w] [] = _
  rw [descend_chain_aux (FS.dir (mkChain (w :: ws) inner)) inner ws [w] [] (by simp) hlk2]
  simp

/-- Every directory the descend loop records on a chain starts with the
first wrapper name. -/
theorem recordDirs_heads (w : String) :
    ∀ (ws r : List String), ∀ q ∈ recordDirs (w :: r) ws, ∃ t, q = w :: t := by
  intro ws
  induction ws with
  | nil =>
    intro r q hq
    simp [recordDirs] at hq
  | cons w2 ws ih =>
    intro r q hq
    simp only [recordDirs, List.mem_cons] at hq
    rcases hq with rfl | hq
    · exact ⟨r, rfl⟩
    · exact ih (r ++ [w2]) q (by simpa using hq)

/-- The cleanup loop is a no-op on a tree whose root has no entry named
like the head of any recorded path. -/
theorem removeDirs_not_mem (w : String) (es : List (String × FS))
    (h : w ∉ es.map Prod.fst) :
    ∀ (ps : List (List String)), (∀ q ∈ ps, ∃ t, q = w :: t) →
    removeDirs ps (FS.dir es) = FS.dir es := by
  intro ps
  induction ps with
  | nil => intro _; rfl
  | cons p ps ih =>
    intro hps
    obtain ⟨t, rfl⟩ := hps p (by simp)
    rw [removeDirs, removePath_head_not_mem w t es h]
    exact ih (fun q hq => hps q (by simp [hq]))

/-- Unfolding of stripDir once the descend result and the innermost
listing are known. -/
theorem stripDir_eq (strip : Nat) (failOn : String → Bool) (root : FS)
    (dir : List String) (toRemove : List (List String)) (es : List (String × FS))
    (h1 : descend root strip [] [] = some (dir, toRemove))
    (h2 : lookupFS dir root = some (FS.dir es)) :
    stripDir strip failOn root =
      (let r := moveEntries dir failOn (es.map Prod.fst) root
       if r.2 then (removeDirs toRemove r.1, true) else r) := by
  simp only [stripDir, h1, h2]

/-- C4 counterexample: stripping one level of a destination whose
single wrapper directory holds one file moves the file up but leaves
the emptied level-1 wrapper directory in place — the descend loop never
records the directory it starts from, so nothing is removed. -/
theorem stripDir_level1_wrapper_remains :
    stripDir 1 (fun _ => false) (FS.dir [("w", FS.dir [("bin", FS.file)])])
      = (FS.dir [("w", FS.dir []), ("bin", FS.file)], true) ∧
    lookupFS ["w"] (stripDir 1 (fun _ => false)
        (FS.dir [("w", FS.dir [("bin", FS.file)])])).1 = some (FS.dir []) :=
  ⟨rfl, rfl⟩

/-- C4 (amended): on a destination tree nesting content inside exactly
one wrapper directory per level, with stripLevels equal to the nesting
depth, a successful strip moves every entry of the innermost directory
up to the destination root (appended in listing order) and removes the
now-empty intermediate wrapper directories — except that with
stripLevels = 1 the emptied level-1 wrapper directory is left in place.
Any rename failure aborts the strip with an error; moves already
performed stay at the root and are not rolled back, the remaining
entries stay in the chain, and no wrapper directory is removed. -/
theorem stripDir_chain (w : String) (ws : List String) (inner : List (String × FS))
    (failOn : String → Bool)
    (hfail : ∀ n ∈ inner.map Prod.fst, failOn n = false)
    (hw : ∀ n ∈ inner.map Prod.fst, ¬ n = w)
    (hnd : (inner.map Prod.fst).Nodup) :
    stripDir (w :: ws).length failOn (FS.dir (mkChain (w :: ws) inner))
      = ((if ws = [] then FS.dir ((w, FS.dir []) :: inner) else FS.dir inner), true) ∧
    (∀ (pre post : List (String × FS)) (m : String) (fm : FS) (failOn2 : String → Bool),
      inner = pre ++ (m, fm) :: post →
      (∀ n ∈ pre.map Prod.fst, failOn2 n = false) →
      failOn2 m = true →
      stripDir (w :: ws).length failOn2 (FS.dir (mkChain (w :: ws) inner))
        = (FS.dir (mkChain (w :: ws) ((m, fm) :: post) ++ pre), false)) := by
  have hlkinner : lookupFS (w :: ws) (FS.dir (mkChain (w :: ws) inner))
      = some (FS.dir inner) := by
    have h := lookup_mkChain (w :: ws) inner []
    simpa using h
  constructor
  · rw [stripDir_eq (w :: ws).length failOn _ (w :: ws) (recordDirs [w] ws) inner
      (descend_chain w ws inner) hlkinner]
    have hmv := moveEntries_chain_ok w ws failOn inner [] hfail hw (by simp) hnd
    simp only [List.append_nil, List.nil_append] at hmv
    simp only [hmv]
    cases ws with
    | nil => simp [recordDirs, removeDirs, mkChain]
    | cons w2 ws2 =>
      have hmem : w ∉ inner.map Prod.fst := fun hmm => hw w hmm rfl
      simp only [recordDirs, mkChain, List.singleton_append, if_true]
      rw [removeDirs]
      rw [show removePath [w]
          (FS.dir ((w, FS.dir [(w2, FS.dir (mkChain ws2 []))]) :: inner)) = FS.dir inner from by
        simp [removePath, eraseEntry]]
      rw [removeDirs_not_mem w inner hmem _ (recordDirs_heads w ws2 [w2])]
      simp
  · intro pre post m fm failOn2 hin hf2 hfm
    subst hin
    rw [stripDir_eq (w :: ws).length failOn2 _ (w :: ws) (recordDirs [w] ws)
      (pre ++ (m, fm) :: post) (descend_chain w ws (pre ++ (m, fm) :: post)) hlkinner]
    have hpref : ∀ n ∈ pre.map Prod.fst, ¬ n = w := fun n hn => hw n (by simp [hn])
    have hprend : (pre.map Prod.fst).Nodup := by
      simp only [List.map_append] at hnd
      exact hnd.of_append_left
    have hmv := moveEntries_chain_fail w ws failOn2 pre m fm post [] hf2 hfm hpref
      (by simp) hprend
    simp only [List.append_nil, List.nil_append] at hmv
    simp only [hmv]
    simp

/-- C4 witness: a two-level chain with one innermost file; the strip
moves the file to the destination root and removes the wrappers. -/
theorem stripDir_chain_witness :
    stripDir 2 (fun _ => false) (FS.dir (mkChain ["w", "v"] [("bin", FS.file)]))
      = (FS.dir [("bin", FS.file)], true) := by
  have h := (stripDir_chain "w" ["v"] [("bin", FS.file)] (fun _ => false)
      (by simp) (by simp) (by simp)).1
  simpa using h

/-- One output pipe of the child process: the bytes written but not yet
read, and whether the writer end has been closed. -/
structure Pipe where
  buf : List Nat
  closed : Bool
deriving DecidableEq, Repr

/-- A child process of the drain scenario: it writes all its stderr
bytes, then all its stdout bytes, then exits closing both pipes.  The
OS gives no ordering guarantee between the two streams, so this is a
legitimate child. -/
inductive ChildPhase where
  | writingErr (outRest errRest : List Nat)
  | writingOut (outRest : List Nat)
  | exited
deriving DecidableEq, Repr

/-- The parent exactly as the Run code behaves after Start: a single
task that first drains stdout to EOF (the first ioutil.ReadAll), then
drains stderr to EOF (the second ReadAll), then waits — strictly
sequential, no goroutines. -/
inductive ParentPhase where
  | drainingOut (acc : List Nat)
  | drainingErr (outAcc errAcc : List Nat)
  | waited (outAcc errAcc : List Nat)
deriving DecidableEq, Repr

/-- A configuration of the child-parent system. -/
structure Config where
  child : ChildPhase
  parent : ParentPhase
  outPipe : Pipe
  errPipe : Pipe
deriving DecidableEq, Repr

/-- The interleaving semantics with OS pipe buffers of capacity K: a
write blocks when the buffer is full, a read blocks when the buffer is
empty and the writer end is open, EOF is reached when the buffer is
empty and the writer end is closed. -/
inductive Step (K : Nat) : Config → Config → Prop where
  | childErr (out errRest : List Nat) (e : Nat) (p : ParentPhase) (op ep : Pipe)
      (h : ep.buf.length < K) :
      Step K ⟨.writingErr out (e :: errRest), p, op, ep⟩
        ⟨.writingErr out errRest, p, op, ⟨ep.buf ++ [e], ep.closed⟩⟩
  | childErrDone (out : List Nat) (p : ParentPhase) (op ep : Pipe) :
      Step K ⟨.writingErr out [], p, op, ep⟩ ⟨.writingOut out, p, op, ep⟩
  | childOut (outRest : List Nat) (o : Nat) (p : ParentPhase) (op ep : Pipe)
      (h : op.buf.length < K) :
      Step K ⟨.writingOut (o :: outRest), p, op, ep⟩
        ⟨.writingOut outRest, p, ⟨op.buf ++ [o], op.closed⟩, ep⟩
  | childExit (p : ParentPhase) (op ep : Pipe) :
      Step K ⟨.writingOut [], p, op, ep⟩ ⟨.exited, p, ⟨op.buf, true⟩, ⟨ep.buf, true⟩⟩
  | parentReadOut (c : ChildPhase) (acc : List Nat) (b : Nat) (rest : List Nat)
      (ocl : Bool) (ep : Pipe) :
      Step K ⟨c, .drainingOut acc, ⟨b :: rest, ocl⟩, ep⟩
        ⟨c, .drainingOut (acc ++ [b]), ⟨rest, ocl⟩, ep⟩
  | parentOutEOF (c : ChildPhase) (acc : List Nat) (ep : Pipe) :
      Step K ⟨c, .drainingOut acc, ⟨[], true⟩, ep⟩
        ⟨c, .drainingErr acc [], ⟨[], true⟩, ep⟩
  | parentReadErr (c : ChildPhase) (oa ea : List Nat) (b : Nat) (rest : List Nat)
      (ecl : Bool) (op : Pipe) :
      Step K ⟨c, .drainingErr oa ea, op, ⟨b :: rest, ecl⟩⟩
        ⟨c, .drainingErr oa (ea ++ [b]), op, ⟨rest, ecl⟩⟩
  | parentErrEOF (c : ChildPhase) (oa ea : List Nat) (op : Pipe) :
      Step K ⟨c, .drainingErr oa ea, op, ⟨[], true⟩⟩
        ⟨c, .waited oa ea, op, ⟨[], true⟩⟩

/-- The initial configuration right after cmd.Start: child about to
write, parent in its first ReadAll, both pipes empty and open. -/
def initConfig (out err : List Nat) : Config :=
  ⟨.writingErr out err, .drainingOut [], ⟨[], false⟩, ⟨[], false⟩⟩

/-- The child can push stderr bytes while the buffer has room. -/
theorem reach_err_writes (K : Nat) (out : List Nat) (p : ParentPhase) (op : Pipe) :
    ∀ (j : Nat) (buf errRest : List Nat),
    buf.length + j ≤ K → j ≤ errRest.length →
    Relation.ReflTransGen (Step K)
      ⟨.writingErr out errRest, p, op, ⟨buf, false⟩⟩
      ⟨.writingErr out (errRest.drop j), p, op, ⟨buf ++ errRest.take j, false⟩⟩ := by
  intro j
  induction j with
  | zero =>
    intro buf errRest _ _
    simp only [List.drop_zero, List.take_zero, List.append_nil]
    exact Relation.ReflTransGen.refl
  | succ j ih =>
    intro buf errRest hK hlen
    cases errRest with
    | nil => simp at hlen
    | cons e rest =>
      have hstep : Step K ⟨.writingErr out (e :: rest), p, op, ⟨buf, false⟩⟩
          ⟨.writingErr out rest, p, op, ⟨buf ++ [e], false⟩⟩ :=
        Step.childErr out rest e p op ⟨buf, false⟩ (by simpa using by omega)
      have htail := ih (buf ++ [e]) rest (by simpa using by omega) (by simpa using hlen)
      refine Relation.ReflTransGen.head hstep ?_
      simpa [List.append_assoc] using htail

/-- The child can push all its stdout bytes when they fit the buffer. -/
theorem reach_out_writes (K : Nat) (p : ParentPhase) (ep : Pipe) :
    ∀ (outRest buf : List Nat), buf.length + outRest.length ≤ K →
    Relation.ReflTransGen (Step K)
      ⟨.writingOut outRest, p, ⟨buf, false⟩, ep⟩
      ⟨.writingOut [], p, ⟨buf ++ outRest, false⟩, ep⟩ := by
  intro outRest
  induction outRest with
  | nil =>
    intro buf _
    simpa using Relation.ReflTransGen.refl
  | cons o rest ih =>
    intro buf hK
    have hstep : Step K ⟨.writingOut (o :: rest), p, ⟨buf, false⟩, ep⟩
        ⟨.writingOut rest, p, ⟨buf ++ [o], false⟩, ep⟩ :=
      Step.childOut rest o p ⟨buf, false⟩ ep
        (by simp only [List.length_cons] at hK; simp; omega)
    have htail := ih (buf ++ [o])
      (by simp only [List.length_cons] at hK; simp; omega)
    refine Relation.ReflTransGen.head hstep ?_
    simpa [List.append_assoc] using htail

/-- The parent empties the stdout pipe. -/
theorem reach_read_out (K : Nat) (c : ChildPhase) (ep : Pipe) (ocl : Bool) :
    ∀ (buf acc : List Nat),
    Relation.ReflTransGen (Step K)
      ⟨c, .drainingOut acc, ⟨buf, ocl⟩, ep⟩
      ⟨c, .drainingOut (acc ++ buf), ⟨[], ocl⟩, ep⟩ := by
  intro buf
  induction buf with
  | nil =>
    intro acc
    simpa using Relation.ReflTransGen.refl
  | cons b rest ih =>
    intro acc
    refine Relation.ReflTransGen.head (Step.parentReadOut c acc b rest ocl ep) ?_
    simpa [List.append_assoc] using ih (acc ++ [b])

/-- The parent empties the stderr pipe. -/
theorem reach_read_err (K : Nat) (c : ChildPhase) (op : Pipe) (ecl : Bool) :
    ∀ (buf oa ea : List Nat),
    Relation.ReflTransGen (Step K)
      ⟨c, .drainingErr oa ea, op, ⟨buf, ecl⟩⟩
      ⟨c, .drainingErr oa (ea ++ buf), op, ⟨[], ecl⟩⟩ := by
  intro buf
  induction buf with
  | nil =>
    intro oa ea
    simpa using Relation.ReflTransGen.refl
  | cons b rest ih =>
    intro oa ea
    refine Relation.ReflTransGen.head (Step.parentReadErr c oa ea b rest ecl op) ?_
    simpa [List.append_assoc] using ih oa (ea ++ [b])

/-- When the child still has stderr to write, the stderr buffer is full
and the parent is reading an open empty stdout pipe, no transition is
enabled and the run has not finished. -/
theorem seqdrain_stuck (K : Nat) (out err : List Nat) (hK : K < err.length) :
    (¬ ∃ d, Step K ⟨.writingErr out (err.drop K), .drainingOut [], ⟨[], false⟩,
        ⟨err.take K, false⟩⟩ d) ∧
    (∀ oa ea, (⟨.writingErr out (err.drop K), .drainingOut [], ⟨[], false⟩,
        ⟨err.take K, false⟩⟩ : Config).parent ≠ ParentPhase.waited oa ea) := by
  have hlen : (err.take K).length = K := by
    rw [List.length_take]
    omega
  constructor
  · rintro ⟨d, hd⟩
    cases hdrop : err.drop K with
    | nil =>
      rw [List.drop_eq_nil_iff] at hdrop
      omega
    | cons e tl =>
      rw [hdrop] at hd
      cases hd with
      | childErr _ _ _ _ _ _ h =>
        simp only [] at h
        omega
  · intro oa ea h
    exact ParentPhase.noConfusion h

/-- C9 counterexample: with a pipe buffer of one byte and a child that
produces two bytes on each stream, stderr first, the sequential drain
of Run reaches — after a single child write — a configuration with no
enabled transition and the run never finishes: the invocation does not
complete, let alone with both buffers captured. -/
theorem run_drain_deadlock_cex :
    Relation.ReflTransGen (Step 1) (initConfig [5, 6] [7, 8])
      ⟨.writingErr [5, 6] [8], .drainingOut [], ⟨[], false⟩, ⟨[7], false⟩⟩ ∧
    (¬ ∃ d, Step 1 ⟨.writingErr [5, 6] [8], .drainingOut [], ⟨[], false⟩,
        ⟨[7], false⟩⟩ d) ∧
    (∀ oa ea, (⟨.writingErr [5, 6] [8], .drainingOut [], ⟨[], false⟩,
        ⟨[7], false⟩⟩ : Config).parent ≠ ParentPhase.waited oa ea) := by
  refine ⟨?_, ?_, ?_⟩
  · exact Relation.ReflTransGen.single
      (Step.childErr [5, 6] [8] 7 (.drainingOut []) ⟨[], false⟩ ⟨[], false⟩ (by simp))
  · rintro ⟨d, hd⟩
    cases hd with
    | childErr _ _ _ _ _ _ h => simp at h
  · intro oa ea h
    exact ParentPhase.noConfusion h

/-- C9 (amended): Run drains the two pipes sequentially on the single
invoking task — stdout fully, then stderr, then the wait.  Under the
bounded pipe-buffer semantics this completes with both buffers fully
captured when each stream fits the OS pipe buffer, but a child that
writes more stderr than the buffer holds before closing stdout drives
the system into a configuration with no enabled transition: the
sequential drain deadlocks instead of completing. -/
theorem run_sequential_drain (K : Nat) (out err : List Nat) :
    (err.length ≤ K → out.length ≤ K →
      Relation.ReflTransGen (Step K) (initConfig out err)
        ⟨.exited, .waited out err, ⟨[], true⟩, ⟨[], true⟩⟩) ∧
    (K < err.length →
      ∃ c : Config, Relation.ReflTransGen (Step K) (initConfig out err) c ∧
        (¬ ∃ d, Step K c d) ∧ ∀ oa ea, c.parent ≠ ParentPhase.waited oa ea) := by
  constructor
  · intro herr hout
    have s1 := reach_err_writes K out (.drainingOut []) ⟨[], false⟩ err.length [] err
      (by simpa using herr) le_rfl
    simp only [List.drop_length, List.take_length, List.nil_append] at s1
    have s3 := reach_out_writes K (.drainingOut []) ⟨err, false⟩ out []
      (by simpa using hout)
    simp only [List.nil_append] at s3
    have s5 := reach_read_out K .exited ⟨err, true⟩ true out []
    simp only [List.nil_append] at s5
    have s7 := reach_read_err K .exited ⟨[], true⟩ true err out []
    simp only [List.nil_append] at s7
    refine Relation.ReflTransGen.trans s1 ?_
    refine Relation.ReflTransGen.head (Step.childErrDone out (.drainingOut [])
      ⟨[], false⟩ ⟨err, false⟩) ?_
    refine Relation.ReflTransGen.trans s3 ?_
    refine Relation.ReflTransGen.head (Step.childExit (.drainingOut [])
      ⟨out, false⟩ ⟨err, false⟩) ?_
    refine Relation.ReflTransGen.trans s5 ?_
    refine Relation.ReflTransGen.head (Step.parentOutEOF .exited out ⟨err, true⟩) ?_
    refine Relation.ReflTransGen.trans s7 ?_
    exact Relation.ReflTransGen.single (Step.parentErrEOF .exited out err ⟨[], true⟩)
  · intro hK
    refine ⟨⟨.writingErr out (err.drop K), .drainingOut [], ⟨[], false⟩,
      ⟨err.take K, false⟩⟩, ?_, (seqdrain_stuck K out err hK).1,
      (seqdrain_stuck K out err hK).2⟩
    have s := reach_err_writes K out (.drainingOut []) ⟨[], false⟩ K [] err
      (by simp) (by omega)
    simpa using s

/-- C9 witness: the amended statement at a one-byte pipe buffer and a
child with two stderr bytes. -/
theorem run_sequential_drain_witness :
    ∃ c : Config, Relation.ReflTransGen (Step 1) (initConfig [5] [7, 8]) c ∧
      (¬ ∃ d, Step 1 c d) ∧ ∀ oa ea, c.parent ≠ ParentPhase.waited oa ea :=
  (run_sequential_drain 1 [5] [7, 8]).2 (by decide)

end Binwrapper
